import Mathlib

/-!
Verification of the output-parsing and tool-adapter logic of the
`chatgpt_tool_hub` repository.

The embedded code is:
* `ChatBot._extract_tool_and_input` from `src/chatgpt_tool_hub/bots/chat_bot/base.py`,
  including a faithful model of the Python regular expression
  `Action: (.*?)[\n]*Action Input: (.*)` under `re.search` semantics
  (leftmost match, lazy first group, greedy trailing group, `.` does not
  match a newline);
* `ChatBot.from_llm_and_tools` from the same file;
* `BrowserTool._run` / `BrowserTool._arun` from
  `src/chatgpt_tool_hub/tools/web_requests/browser.py`;
* `GoogleSearch._run`, `GoogleSearch._arun`, `GoogleSearchResults._run` and
  `GoogleSearchResults._arun` from
  `src/chatgpt_tool_hub/tools/google_search/google_search.py`.

Strings are modelled as `List Char` (the `data` of a Lean `String`), and
Python exceptions as an explicit `Except` result.
-/

/-- Python's substring test `sep in s` on character lists: `true` iff `sep`
occurs contiguously in `s`. -/
def containsSub (sep : List Char) : List Char → Bool
  | [] => sep.isEmpty
  | c :: rest => sep.isPrefixOf (c :: rest) || containsSub sep rest

/-- The remainder of `s` just after the first (leftmost) occurrence of `sep`,
or `none` when `sep` does not occur.  This is the scanning step underlying
Python's `s.split(sep)`. -/
def afterFirstOcc (sep : List Char) : List Char → Option (List Char)
  | [] => none
  | c :: rest =>
    if sep.isPrefixOf (c :: rest) then some (List.drop sep.length (c :: rest))
    else afterFirstOcc sep rest

/-- Fuel-indexed iteration of `afterFirstOcc`; with enough fuel it computes
the text after the last occurrence of `sep` under Python's left-to-right
non-overlapping scan, i.e. `s.split(sep)[-1]`. -/
def afterLastOccFuel (sep : List Char) : Nat → List Char → List Char
  | 0, s => s
  | Nat.succ fuel, s =>
    match afterFirstOcc sep s with
    | none => s
    | some r => afterLastOccFuel sep fuel r

/-- Python's `s.split(sep)[-1]`: the text after the last occurrence of `sep`
(`s` itself when `sep` does not occur).  Each `afterFirstOcc` step strictly
shortens the text (for nonempty `sep`), so `s.length + 1` units of fuel
always suffice. -/
def afterLastOcc (sep s : List Char) : List Char :=
  afterLastOccFuel sep (s.length + 1) s

/-- The character class stripped by Python's `str.strip()` (ASCII whitespace:
space, tab, newline, carriage return, vertical tab, form feed). -/
def pyIsSpace (c : Char) : Bool :=
  c == ' ' || c == '\t' || c == '\n' || c == '\r' || c == '\x0b' || c == '\x0c'

/-- Remove from both ends of `s` the characters satisfying `p`, exactly as
Python's `str.strip(chars)` does for the class `p`. -/
def stripEnds (p : Char → Bool) (s : List Char) : List Char :=
  ((s.dropWhile p).reverse.dropWhile p).reverse

/-- Python's `str.strip()` with no argument: strip whitespace at both ends. -/
def pyStrip (s : List Char) : List Char := stripEnds pyIsSpace s

/-- Python's `str.strip(" ")`: strip space characters (U+0020 only) at both
ends. -/
def stripSpaces (s : List Char) : List Char := stripEnds (fun c => c == ' ') s

/-- Python's `str.strip('"')`: strip double-quote characters at both ends. -/
def stripQuotes (s : List Char) : List Char := stripEnds (fun c => c == '"') s

/-- The stripping operation described by the specification sentence
"input Y stripped of surrounding quotes and whitespace": remove, at both
ends, every character that is whitespace or a double quote.  This is the
spec-side definition used to compare with what the code computes. -/
def specStripQuotesWs (s : List Char) : List Char :=
  stripEnds (fun c => pyIsSpace c || c == '"') s

/-- The literal `"Action: "` of the regular expression. -/
def actionLit : List Char := ['A', 'c', 't', 'i', 'o', 'n', ':', ' ']

/-- The literal `"Action Input: "` of the regular expression. -/
def actionInputLit : List Char :=
  ['A', 'c', 't', 'i', 'o', 'n', ' ', 'I', 'n', 'p', 'u', 't', ':', ' ']

/-- Newline test, written as a named function so proofs can rewrite by it. -/
def isNl (c : Char) : Bool := c == '\n'

/-- Negated newline test, the character class of `.` in the regex. -/
def notNl (c : Char) : Bool := c != '\n'

/-- Matching of the tail `(.*?)[\n]*Action Input: (.*)` of the regular
expression at a fixed position (the position just after an `"Action: "`
literal).  Returns the first capture group together with the text following
the `"Action Input: "` literal, or `none` when no match starts here.

The first group is lazy, so the function first tries to close the group
(allowing a run of newlines before the literal, since `[\n]*` is greedy and
the literal starts with `A`), and only otherwise extends the group by one
non-newline character; a newline can never enter the group because `.` does
not match it. -/
def matchRest : List Char → Option (List Char × List Char)
  | [] => none
  | c :: rest =>
    if actionInputLit.isPrefixOf ((c :: rest).dropWhile isNl) then
      some ([], ((c :: rest).dropWhile isNl).drop actionInputLit.length)
    else if isNl c then
      none
    else
      match matchRest rest with
      | some p => some (c :: p.1, p.2)
      | none => none

/-- Model of `re.search(r"Action: (.*?)[\n]*Action Input: (.*)", s)`:
scan left to right for the first position where the pattern matches, and
return the two capture groups.  The second group `(.*)` is greedy and `.`
does not match a newline, so it is the rest of the line after the
`"Action Input: "` literal. -/
def reSearch : List Char → Option (List Char × List Char)
  | [] => none
  | c :: rest =>
    if actionLit.isPrefixOf (c :: rest) then
      match matchRest ((c :: rest).drop actionLit.length) with
      | some p => some (p.1, p.2.takeWhile notNl)
      | none => reSearch rest
    else
      reSearch rest

/-- Embedding of `ChatBot._extract_tool_and_input`
(`src/chatgpt_tool_hub/bots/chat_bot/base.py`).  `aiPre` is the bot's
`ai_prefix` attribute (default `"AI"`).  The Python method either returns a
pair of strings or raises `ValueError`; the raise is modelled as
`Except.error` carrying the exception message. -/
def extract_tool_and_input (aiPre llmOutput : String) :
    Except String (String × String) :=
  if containsSub (aiPre.data ++ [':']) llmOutput.data then
    Except.ok (aiPre,
      String.mk (pyStrip (afterLastOcc (aiPre.data ++ [':']) llmOutput.data)))
  else
    match reSearch llmOutput.data with
    | some p =>
      Except.ok (String.mk (pyStrip p.1),
        String.mk (stripQuotes (stripSpaces p.2)))
    | none =>
      Except.error ("Could not parse LLM output: `" ++ llmOutput ++ "`")

/-- A tool as the bot sees it: a named, described adapter
(`chatgpt_tool_hub.tools.base_tool.BaseTool`). -/
structure BaseTool where
  name : String
  description : String

/-- Pairwise distinctness of a list of names, used by tool validation. -/
def namesUnique : List String → Bool
  | [] => true
  | n :: rest => (!rest.contains n) && namesUnique rest

/-- Modelled from the spec: `Bot._validate_tools`
(`src/chatgpt_tool_hub/bots/bot.py` is not part of the sources; only its
caller `ChatBot.from_llm_and_tools` is).  The spec's data-model invariant is
that "tool names are unique within a session", so validation accepts a tool
sequence exactly when its names are pairwise distinct. -/
def validate_tools (tools : List BaseTool) : Bool :=
  namesUnique (tools.map BaseTool.name)

/-- The bot state relevant to the tool-name invariant: the `allowed_tools`
list that `ChatBot.from_llm_and_tools` builds. -/
structure ChatBotInst where
  allowed_tools : List String

/-- Embedding of `ChatBot.from_llm_and_tools`
(`src/chatgpt_tool_hub/bots/chat_bot/base.py`): validate the tools, then
construct the bot with `allowed_tools = [tool.name for tool in tools]`.
A validation failure is modelled as `none`. -/
def from_llm_and_tools (tools : List BaseTool) : Option ChatBotInst :=
  if validate_tools tools then
    some { allowed_tools := tools.map BaseTool.name }
  else
    none

/-- A Python exception, as the adapters see one: the exception class name and
its message. -/
structure PyError where
  ename : String
  msg : String

/-- Python's `str(e)` on an exception: its message. -/
def pyStrE (e : PyError) : String := e.msg

/-- Python's `repr(e)` on an exception: class name and quoted message. -/
def pyReprE (e : PyError) : String := e.ename ++ "('" ++ e.msg ++ "')"

/-- Modelled from the spec: `GoogleSearchAPIWrapper.run`
(`src/chatgpt_tool_hub/tools/google_search/wrapper.py` is not part of the
sources).  Per the spec, tool-execution failures are caught at the adapter
boundary and returned as their string representation rather than propagated;
the wrapper's raw outcome (result text, or an exception) is the argument. -/
def api_wrapper_run (raw : Except PyError String) : String :=
  match raw with
  | Except.ok s => s
  | Except.error e => pyStrE e

/-- Embedding of `GoogleSearch._run`
(`src/chatgpt_tool_hub/tools/google_search/google_search.py`):
`return self.api_wrapper.run(query)`, with the wrapper's raw outcome as the
argument. -/
def google_search_run (raw : Except PyError String) : Except PyError String :=
  Except.ok (api_wrapper_run raw)

/-- Embedding of `BrowserTool._run`
(`src/chatgpt_tool_hub/tools/web_requests/browser.py`): try the GET request
and the text filter; on any exception `e` the result is `repr(e)` instead.
`get` is the outcome of `self.requests_wrapper.get(url)` and `filterText`
the behaviour of `filter_text` (both external collaborators that may
raise). -/
def browser_run (get : Except PyError String)
    (filterText : String → Except PyError String) : Except PyError String :=
  match get with
  | Except.error e => Except.ok (pyReprE e)
  | Except.ok html =>
    match filterText html with
    | Except.error e => Except.ok (pyReprE e)
    | Except.ok content => Except.ok content

/-- Helper for the `_arun` embeddings: the raised `NotImplementedError`. -/
def notImplErr (m : String) : PyError := ⟨"NotImplementedError", m⟩

/-- Embedding of `GoogleSearch._arun`: always raises `NotImplementedError`. -/
def google_search_arun (_query : String) : Except PyError String :=
  Except.error (notImplErr "GoogleSearchRun does not support async")

/-- Embedding of `GoogleSearchResults._arun`: always raises
`NotImplementedError`. -/
def google_search_results_arun (_query : String) : Except PyError String :=
  Except.error (notImplErr "GoogleSearchRun does not support async")

/-- Embedding of `BrowserTool._arun`: always raises `NotImplementedError`. -/
def browser_arun (_url : String) : Except PyError String :=
  Except.error (notImplErr "not support run this tool in async")

/-- The `GoogleSearchResults` tool's own state: its `num_results` field with
the source's default value `3`. -/
structure GoogleSearchResults where
  num_results : Nat := 3

/-- Python's `str` on a list whose elements render to the given strings:
`"[" ++ elements joined by ", " ++ "]"`. -/
def pyListStr (items : List String) : String :=
  "[" ++ String.intercalate ", " items ++ "]"

/-- Embedding of `GoogleSearchResults._run`
(`src/chatgpt_tool_hub/tools/google_search/google_search.py`):
`return str(self.api_wrapper.results(query, self.num_results))`.
`results` is the external search wrapper, abstracted as a function from the
query and the requested result count to the rendered result list. -/
def google_search_results_run (results : String → Nat → List String)
    (tool : GoogleSearchResults) (query : String) : String :=
  pyListStr (results query tool.num_results)

/-! ## Lemmas about the substring scan underlying the final-answer branch -/

theorem afterFirstOcc_some {sep s r : List Char}
    (h : afterFirstOcc sep s = some r) : ∃ p, s = p ++ sep ++ r := by
  induction s with
  | nil => simp [afterFirstOcc] at h
  | cons c rest ih =>
    rw [afterFirstOcc] at h
    by_cases hp : sep.isPrefixOf (c :: rest) = true
    · rw [if_pos hp] at h
      obtain ⟨t, ht⟩ := List.isPrefixOf_iff_prefix.mp hp
      have hd : List.drop sep.length (c :: rest) = t := by
        rw [← ht]
        exact List.drop_left _ _
      refine ⟨[], ?_⟩
      injection h with h
      rw [← h, hd, List.nil_append, ht]
    · rw [if_neg hp] at h
      obtain ⟨p, hp'⟩ := ih h
      exact ⟨c :: p, by simp [hp']⟩

theorem afterFirstOcc_some_length {sep s r : List Char} (hsep : sep ≠ [])
    (h : afterFirstOcc sep s = some r) : r.length < s.length := by
  obtain ⟨p, hp⟩ := afterFirstOcc_some h
  subst hp
  have : 0 < sep.length := List.length_pos.mpr hsep
  simp [List.length_append]
  omega

theorem afterFirstOcc_some_containsSub {sep s r : List Char}
    (h : afterFirstOcc sep s = some r) : containsSub sep s = true := by
  induction s with
  | nil => simp [afterFirstOcc] at h
  | cons c rest ih =>
    rw [afterFirstOcc] at h
    rw [containsSub, Bool.or_eq_true]
    by_cases hp : sep.isPrefixOf (c :: rest) = true
    · exact Or.inl hp
    · rw [if_neg hp] at h
      exact Or.inr (ih h)

theorem containsSub_afterFirstOcc {sep s : List Char} (hsep : sep ≠ [])
    (h : containsSub sep s = true) : ∃ r, afterFirstOcc sep s = some r := by
  induction s with
  | nil =>
    rw [containsSub] at h
    cases sep with
    | nil => exact absurd rfl hsep
    | cons a l => exact Bool.noConfusion h
  | cons c rest ih =>
    rw [containsSub, Bool.or_eq_true] at h
    by_cases hp : sep.isPrefixOf (c :: rest) = true
    · exact ⟨_, by rw [afterFirstOcc, if_pos hp]⟩
    · rcases h with h | h
      · exact absurd h hp
      · obtain ⟨r, hr⟩ := ih h
        exact ⟨r, by rw [afterFirstOcc, if_neg hp, hr]⟩

theorem afterFirstOcc_none_containsSub {sep s : List Char} (hsep : sep ≠ [])
    (h : afterFirstOcc sep s = none) : containsSub sep s = false := by
  induction s with
  | nil =>
    rw [containsSub]
    cases sep with
    | nil => exact absurd rfl hsep
    | cons a l => rfl
  | cons c rest ih =>
    rw [afterFirstOcc] at h
    by_cases hp : sep.isPrefixOf (c :: rest) = true
    · rw [if_pos hp] at h
      cases h
    · rw [if_neg hp] at h
      rw [containsSub, Bool.or_eq_false_iff]
      exact ⟨Bool.not_eq_true _ ▸ (by simpa using hp), ih h⟩

theorem afterLastOccFuel_spec {sep : List Char} (hsep : sep ≠ []) :
    ∀ fuel (s : List Char), s.length < fuel → containsSub sep s = true →
      (∃ p, s = p ++ sep ++ afterLastOccFuel sep fuel s) ∧
        containsSub sep (afterLastOccFuel sep fuel s) = false := by
  intro fuel
  induction fuel with
  | zero => intro s hs _; omega
  | succ fuel ih =>
    intro s hs hc
    obtain ⟨r, hr⟩ := containsSub_afterFirstOcc hsep hc
    simp only [afterLastOccFuel, hr]
    have hlen : r.length < s.length := afterFirstOcc_some_length hsep hr
    obtain ⟨p0, hp0⟩ := afterFirstOcc_some hr
    by_cases hcr : containsSub sep r = true
    · obtain ⟨⟨p1, hp1⟩, hdone⟩ := ih r (by omega) hcr
      refine ⟨⟨p0 ++ sep ++ p1, ?_⟩, hdone⟩
      rw [hp0]
      conv_lhs => rw [hp1]
      simp [List.append_assoc]
    · have hnone : afterFirstOcc sep r = none := by
        cases hx : afterFirstOcc sep r with
        | none => rfl
        | some r' => exact absurd (afterFirstOcc_some_containsSub hx) hcr
      have hstay : afterLastOccFuel sep fuel r = r := by
        cases fuel with
        | zero => rfl
        | succ f => rw [afterLastOccFuel, hnone]
      rw [hstay]
      exact ⟨⟨p0, hp0⟩, Bool.eq_false_iff.mpr hcr⟩

theorem afterLastOcc_spec {sep s : List Char} (hsep : sep ≠ [])
    (h : containsSub sep s = true) :
    (∃ p, s = p ++ sep ++ afterLastOcc sep s) ∧
      containsSub sep (afterLastOcc sep s) = false :=
  afterLastOccFuel_spec hsep (s.length + 1) s (by omega) h

/-- C1: a model-output string containing the final-answer marker
(`ai_prefix` followed by a colon) makes `_extract_tool_and_input` terminate
the parse, returning the pair `(ai_prefix, t)` where `t` is the trailing
text after the (last occurrence of the) marker, stripped of leading and
trailing whitespace; the action regex is never reached. -/
theorem c1_final_answer (aiPre llmOut : String)
    (h : containsSub (aiPre.data ++ [':']) llmOut.data = true) :
    (∃ p, llmOut.data =
        p ++ (aiPre.data ++ [':']) ++ afterLastOcc (aiPre.data ++ [':']) llmOut.data) ∧
      containsSub (aiPre.data ++ [':'])
        (afterLastOcc (aiPre.data ++ [':']) llmOut.data) = false ∧
      extract_tool_and_input aiPre llmOut =
        Except.ok (aiPre,
          String.mk (pyStrip (afterLastOcc (aiPre.data ++ [':']) llmOut.data))) := by
  have hsep : aiPre.data ++ [':'] ≠ [] := by simp
  obtain ⟨hex, hnone⟩ := afterLastOcc_spec hsep h
  refine ⟨hex, hnone, ?_⟩
  simp [extract_tool_and_input, h]

/-- Witness for C1 at a concrete input: the marker occurs, the parse
terminates with the stripped trailing text. -/
theorem c1_final_answer_witness :
    extract_tool_and_input "AI" "Thought\nAI: 42 " = Except.ok ("AI", "42") := by
  have h := c1_final_answer "AI" "Thought\nAI: 42 " (by decide)
  exact h.2.2

/-! ## Lemmas about the regular-expression model -/

theorem dropWhile_isNl_actionInput (z : List Char) :
    (actionInputLit ++ z).dropWhile isNl = actionInputLit ++ z := rfl

theorem dropWhile_isNl_cons_nl (z : List Char) :
    (('\n' : Char) :: z).dropWhile isNl = z.dropWhile isNl := rfl

theorem matchRest_exact (X r tail : List Char) (hX : '\n' ∉ X)
    (hk : ∀ k, k < X.length → actionInputLit.isPrefixOf ((X ++ r).drop k) = false)
    (hr : r.dropWhile isNl = actionInputLit ++ tail) :
    matchRest (X ++ r) = some (X, tail) := by
  induction X with
  | nil =>
    simp only [List.nil_append]
    cases r with
    | nil => simp [List.dropWhile, actionInputLit] at hr
    | cons c rest =>
      rw [matchRest, hr]
      have hpre : actionInputLit.isPrefixOf (actionInputLit ++ tail) = true :=
        List.isPrefixOf_iff_prefix.mpr (List.prefix_append _ _)
      rw [hpre]
      simp [List.drop_left]
  | cons x X' ih =>
    have hx : x ≠ '\n' := fun he => hX (he ▸ List.mem_cons_self _ _)
    have hX' : '\n' ∉ X' := fun hm => hX (List.mem_cons_of_mem _ hm)
    simp only [List.cons_append]
    rw [matchRest]
    have hnl : isNl x = false := by simp [isNl, hx]
    have hdw : (x :: (X' ++ r)).dropWhile isNl = x :: (X' ++ r) := by
      rw [List.dropWhile_cons, hnl]
      simp
    rw [hdw]
    have hc0 : actionInputLit.isPrefixOf (x :: (X' ++ r)) = false := by
      have h0 := hk 0 (by simp)
      simpa using h0
    rw [hc0, hnl]
    have hrec : matchRest (X' ++ r) = some (X', tail) := by
      refine ih hX' ?_
      intro k hk'
      have h1 := hk (k + 1) (by simp; omega)
      simpa using h1
    rw [hrec]
    simp

theorem reSearch_skip_pre (pre s : List Char)
    (h : ∀ i, i < pre.length → actionLit.isPrefixOf ((pre ++ s).drop i) = false) :
    reSearch (pre ++ s) = reSearch s := by
  induction pre with
  | nil => simp
  | cons c pre' ih =>
    simp only [List.cons_append]
    rw [reSearch]
    have h0 : actionLit.isPrefixOf (c :: (pre' ++ s)) = false := by
      simpa using h 0 (by simp)
    rw [h0]
    simp only [Bool.false_eq_true, if_false]
    refine ih ?_
    intro i hi
    have h1 := h (i + 1) (by simp; omega)
    simpa using h1

theorem reSearch_hit (rest X tail : List Char) (h : matchRest rest = some (X, tail)) :
    reSearch (actionLit ++ rest) = some (X, tail.takeWhile notNl) := by
  show reSearch (('A' : Char) :: (['c', 't', 'i', 'o', 'n', ':', ' '] ++ rest)) = _
  rw [reSearch]
  have hc : actionLit.isPrefixOf
      (('A' : Char) :: (['c', 't', 'i', 'o', 'n', ':', ' '] ++ rest)) = true :=
    List.isPrefixOf_iff_prefix.mpr (List.prefix_append actionLit rest)
  rw [hc]
  have hdrop : (('A' : Char) :: (['c', 't', 'i', 'o', 'n', ':', ' '] ++ rest)).drop
      actionLit.length = rest := List.drop_left actionLit rest
  rw [if_pos rfl, hdrop, h]

theorem takeWhile_notNl_append (Y z : List Char) (hY : '\n' ∉ Y)
    (hz : z = [] ∨ z.head? = some '\n') :
    (Y ++ z).takeWhile notNl = Y := by
  induction Y with
  | nil =>
    rcases hz with rfl | hz
    · rfl
    · cases z with
      | nil => simp at hz
      | cons c z' =>
        simp at hz
        subst hz
        have hn : notNl '\n' = false := rfl
        simp [List.takeWhile_cons, hn]
  | cons y Y' ih =>
    have hy : y ≠ '\n' := fun he => hY (he ▸ List.mem_cons_self _ _)
    have hny : notNl y = true := by simp [notNl, hy]
    have ih' := ih (fun hm => hY (List.mem_cons_of_mem _ hm))
    simp [List.takeWhile_cons, hny, ih']

theorem extract_of_reSearch (aiPre llmOut : String) (g1 g2 : List Char)
    (hm : containsSub (aiPre.data ++ [':']) llmOut.data = false)
    (hs : reSearch llmOut.data = some (g1, g2)) :
    extract_tool_and_input aiPre llmOut =
      Except.ok (String.mk (pyStrip g1), String.mk (stripQuotes (stripSpaces g2))) := by
  simp [extract_tool_and_input, hm, hs]

theorem extract_action_core (aiPre llmOut : String) (pre X Y post : List Char)
    (hshape : llmOut.data =
      pre ++ (actionLit ++ (X ++ ('\n' :: (actionInputLit ++ (Y ++ post))))))
    (hm : containsSub (aiPre.data ++ [':']) llmOut.data = false)
    (hpre : ∀ i, i < pre.length → actionLit.isPrefixOf (llmOut.data.drop i) = false)
    (hX : '\n' ∉ X)
    (hk : ∀ k, k < X.length →
      actionInputLit.isPrefixOf
        ((X ++ ('\n' :: (actionInputLit ++ (Y ++ post)))).drop k) = false)
    (hY : '\n' ∉ Y)
    (hpost : post = [] ∨ post.head? = some '\n') :
    extract_tool_and_input aiPre llmOut =
      Except.ok (String.mk (pyStrip X), String.mk (stripQuotes (stripSpaces Y))) := by
  have hr : ('\n' :: (actionInputLit ++ (Y ++ post))).dropWhile isNl =
      actionInputLit ++ (Y ++ post) := by
    rw [dropWhile_isNl_cons_nl, dropWhile_isNl_actionInput]
  have hmr : matchRest (X ++ ('\n' :: (actionInputLit ++ (Y ++ post)))) =
      some (X, Y ++ post) := matchRest_exact _ _ _ hX hk hr
  have hskip := reSearch_skip_pre pre
    (actionLit ++ (X ++ ('\n' :: (actionInputLit ++ (Y ++ post)))))
    (fun i hi => by have h0 := hpre i hi; rwa [hshape] at h0)
  have hsearch : reSearch llmOut.data = some (X, Y) := by
    rw [hshape, hskip, reSearch_hit _ _ _ hmr,
      takeWhile_notNl_append Y post hY hpost]
  exact extract_of_reSearch aiPre llmOut X Y hm hsearch

/-- C2 (amended): on a string without the final-answer marker containing a
well-formed "Action: X" line followed by an "Action Input: Y" line (the
block being the first point where `"Action: "` occurs and `X` free of the
`"Action Input: "` literal), `_extract_tool_and_input` returns `(X', Y')`
where `X'` is `X` stripped of surrounding whitespace and `Y'` is `Y`
stripped first of surrounding space characters and then of surrounding
double-quote characters — not of their union, so spaces guarded by quotes
survive. -/
theorem c2_action_dispatch (aiPre llmOut : String) (pre X Y post : List Char)
    (hshape : llmOut.data =
      pre ++ (actionLit ++ (X ++ ('\n' :: (actionInputLit ++ (Y ++ post))))))
    (hm : containsSub (aiPre.data ++ [':']) llmOut.data = false)
    (hpre : ∀ i, i < pre.length → actionLit.isPrefixOf (llmOut.data.drop i) = false)
    (hX : '\n' ∉ X)
    (hk : ∀ k, k < X.length →
      actionInputLit.isPrefixOf
        ((X ++ ('\n' :: (actionInputLit ++ (Y ++ post)))).drop k) = false)
    (hY : '\n' ∉ Y)
    (hpost : post = [] ∨ post.head? = some '\n') :
    extract_tool_and_input aiPre llmOut =
      Except.ok (String.mk (pyStrip X), String.mk (stripQuotes (stripSpaces Y))) :=
  extract_action_core aiPre llmOut pre X Y post hshape hm hpre hX hk hY hpost

/-- Witness for the amended C2 at a concrete input. -/
theorem c2_action_dispatch_witness :
    extract_tool_and_input "AI" "Action: search\nAction Input: \"2+2\"" =
      Except.ok ("search", "2+2") := by
  have h := c2_action_dispatch "AI" "Action: search\nAction Input: \"2+2\""
    [] "search".data "\"2+2\"".data []
    (by decide) (by decide) (by decide) (by decide) (by decide) (by decide)
    (by decide)
  exact h

/-- C2 (counterexample to the claim as stated): for the input below the code
returns the action input `" hello "` — the quotes are stripped but the
spaces they surrounded are kept — whereas an input "stripped of surrounding
quote characters and whitespace" would be `"hello"`. -/
theorem c2_counterexample :
    extract_tool_and_input "AI" "Action: search\nAction Input: \" hello \"" =
      Except.ok ("search", " hello ") ∧
    String.mk (specStripQuotesWs "\" hello \"".data) = "hello" ∧
    (" hello " : String) ≠ "hello" := ⟨rfl, rfl, by decide⟩

/-- C3: a model-output string containing neither the final-answer marker nor
a match of the action regex makes `_extract_tool_and_input` raise
`ValueError` (modelled as `Except.error`) with the source's message; no
recovery value is produced. -/
theorem c3_parse_error (aiPre llmOut : String)
    (h1 : containsSub (aiPre.data ++ [':']) llmOut.data = false)
    (h2 : reSearch llmOut.data = none) :
    extract_tool_and_input aiPre llmOut =
      Except.error ("Could not parse LLM output: `" ++ llmOut ++ "`") := by
  simp [extract_tool_and_input, h1, h2]

/-- Witness for C3 at a concrete unparseable input. -/
theorem c3_parse_error_witness :
    extract_tool_and_input "AI" "I cannot help" =
      Except.error "Could not parse LLM output: `I cannot help`" := by
  have h := c3_parse_error "AI" "I cannot help" (by decide) (by decide)
  exact h

/-- C6: the final-answer check takes precedence — when the marker is present,
even alongside a well-formed action block, the result's first component is
`ai_prefix` (the final-answer branch), not the action name. -/
theorem c6_final_answer_precedence (aiPre llmOut : String) (pre X Y post : List Char)
    (hm : containsSub (aiPre.data ++ [':']) llmOut.data = true)
    (hshape : llmOut.data =
      pre ++ (actionLit ++ (X ++ ('\n' :: (actionInputLit ++ (Y ++ post)))))) :
    ∃ t, extract_tool_and_input aiPre llmOut = Except.ok (aiPre, t) := by
  refine ⟨String.mk (pyStrip (afterLastOcc (aiPre.data ++ [':']) llmOut.data)), ?_⟩
  simp [extract_tool_and_input, hm]

/-- Witness for C6 at an input holding both an action block and the marker. -/
theorem c6_final_answer_precedence_witness :
    ∃ t, extract_tool_and_input "AI" "Action: a\nAction Input: b\nAI: done" =
      Except.ok ("AI", t) :=
  c6_final_answer_precedence "AI" "Action: a\nAction Input: b\nAI: done"
    [] ['a'] ['b'] ('\n' :: "AI: done".data) (by decide) (by decide)

/-- C8: the action-input capture stops at the end of the line — with text
after "Action Input: " spanning several lines, only the first line (then
stripped as the code strips) is returned; the trailing lines `tl` do not
appear in the result. -/
theorem c8_multiline_truncated (aiPre llmOut : String) (pre X Y tl : List Char)
    (hshape : llmOut.data =
      pre ++ (actionLit ++ (X ++ ('\n' :: (actionInputLit ++ (Y ++ ('\n' :: tl)))))))
    (hm : containsSub (aiPre.data ++ [':']) llmOut.data = false)
    (hpre : ∀ i, i < pre.length → actionLit.isPrefixOf (llmOut.data.drop i) = false)
    (hX : '\n' ∉ X)
    (hk : ∀ k, k < X.length →
      actionInputLit.isPrefixOf
        ((X ++ ('\n' :: (actionInputLit ++ (Y ++ ('\n' :: tl))))).drop k) = false)
    (hY : '\n' ∉ Y) :
    extract_tool_and_input aiPre llmOut =
      Except.ok (String.mk (pyStrip X), String.mk (stripQuotes (stripSpaces Y))) :=
  extract_action_core aiPre llmOut pre X Y ('\n' :: tl) hshape hm hpre hX hk hY
    (Or.inr rfl)

/-- Witness for C8: the second input line is discarded. -/
theorem c8_multiline_truncated_witness :
    extract_tool_and_input "AI" "Action: calc\nAction Input: one\ntwo" =
      Except.ok ("calc", "one") := by
  have h := c8_multiline_truncated "AI" "Action: calc\nAction Input: one\ntwo"
    [] "calc".data "one".data "two".data
    (by decide) (by decide) (by decide) (by decide) (by decide) (by decide)
  exact h

/-- C9: the regex allows zero newlines between the two fields, so a
single-line "Action: X Action Input: Y" string parses successfully into
`(X stripped, Y stripped)` instead of raising a parse error. -/
theorem c9_single_line (aiPre llmOut : String) (pre X Y post : List Char)
    (hshape : llmOut.data =
      pre ++ (actionLit ++ (X ++ (actionInputLit ++ (Y ++ post)))))
    (hm : containsSub (aiPre.data ++ [':']) llmOut.data = false)
    (hpre : ∀ i, i < pre.length → actionLit.isPrefixOf (llmOut.data.drop i) = false)
    (hX : '\n' ∉ X)
    (hk : ∀ k, k < X.length →
      actionInputLit.isPrefixOf ((X ++ (actionInputLit ++ (Y ++ post))).drop k) = false)
    (hY : '\n' ∉ Y)
    (hpost : post = [] ∨ post.head? = some '\n') :
    extract_tool_and_input aiPre llmOut =
      Except.ok (String.mk (pyStrip X), String.mk (stripQuotes (stripSpaces Y))) := by
  have hmr : matchRest (X ++ (actionInputLit ++ (Y ++ post))) = some (X, Y ++ post) :=
    matchRest_exact _ _ _ hX hk (dropWhile_isNl_actionInput (Y ++ post))
  have hskip := reSearch_skip_pre pre
    (actionLit ++ (X ++ (actionInputLit ++ (Y ++ post))))
    (fun i hi => by have h0 := hpre i hi; rwa [hshape] at h0)
  have hsearch : reSearch llmOut.data = some (X, Y) := by
    rw [hshape, hskip, reSearch_hit _ _ _ hmr,
      takeWhile_notNl_append Y post hY hpost]
  exact extract_of_reSearch aiPre llmOut X Y hm hsearch

/-- Witness for C9: a one-line action block parses; the captured action name
is the text between the two literals, whitespace-stripped. -/
theorem c9_single_line_witness :
    extract_tool_and_input "AI" "Action: search Action Input: foo" =
      Except.ok ("search", "foo") := by
  have h := c9_single_line "AI" "Action: search Action Input: foo"
    [] "search ".data "foo".data []
    (by decide) (by decide) (by decide) (by decide) (by decide) (by decide)
    (by decide)
  exact h

/-! ## Tool validation, tool adapters -/

theorem namesUnique_iff (l : List String) : namesUnique l = true ↔ l.Nodup := by
  induction l with
  | nil => simp [namesUnique]
  | cons n rest ih =>
    rw [namesUnique, Bool.and_eq_true, List.nodup_cons, ← ih]
    constructor
    · rintro ⟨h1, h2⟩
      refine ⟨?_, h2⟩
      intro hmem
      simp [hmem] at h1
    · rintro ⟨h1, h2⟩
      refine ⟨?_, h2⟩
      simp [h1]

/-- C7: every tool sequence accepted by `from_llm_and_tools` (that is,
passing `_validate_tools`) yields a bot whose `allowed_tools` list has no
duplicate names. -/
theorem c7_tool_names_unique (tools : List BaseTool) (bot : ChatBotInst)
    (h : from_llm_and_tools tools = some bot) : bot.allowed_tools.Nodup := by
  unfold from_llm_and_tools at h
  by_cases hv : validate_tools tools = true
  · rw [if_pos hv] at h
    injection h with h
    rw [← h]
    exact (namesUnique_iff _).mp hv
  · rw [if_neg hv] at h
    cases h

/-- Witness for C7: a concrete accepted tool list with distinct names. -/
theorem c7_tool_names_unique_witness :
    from_llm_and_tools
        [⟨"Google Search", "search the web"⟩, ⟨"browser", "fetch a page"⟩] =
      some ⟨["Google Search", "browser"]⟩ ∧
    (ChatBotInst.allowed_tools ⟨["Google Search", "browser"]⟩).Nodup :=
  ⟨rfl, c7_tool_names_unique
    [⟨"Google Search", "search the web"⟩, ⟨"browser", "fetch a page"⟩]
    ⟨["Google Search", "browser"]⟩ rfl⟩

/-- C4: synchronous tool execution never propagates a failure.
`BrowserTool._run` catches any exception from the GET request or the text
filter and returns `repr(e)`; `GoogleSearch._run` returns the wrapper's
string, the wrapper (modelled from the spec) having already converted a
failure to `str(e)`.  Both `_run`s therefore always return a string, and on
a failing call that string is the error's representation. -/
theorem c4_run_catches (get raw : Except PyError String)
    (filterText : String → Except PyError String) (e : PyError) :
    (∃ s, browser_run get filterText = Except.ok s) ∧
    (∃ s, google_search_run raw = Except.ok s) ∧
    browser_run (Except.error e) filterText = Except.ok (pyReprE e) ∧
    google_search_run (Except.error e) = Except.ok (pyStrE e) := by
  refine ⟨?_, ⟨api_wrapper_run raw, rfl⟩, rfl, rfl⟩
  cases get with
  | error e' => exact ⟨pyReprE e', rfl⟩
  | ok html =>
    cases hf : filterText html with
    | error e' => exact ⟨pyReprE e', by simp [browser_run, hf]⟩
    | ok content => exact ⟨content, by simp [browser_run, hf]⟩

/-- C5: asynchronous invocation is unsupported for every tool and every
input: each `_arun` raises `NotImplementedError` with the source's message
and never returns a value. -/
theorem c5_arun_not_implemented (query url : String) :
    google_search_arun query =
      Except.error ⟨"NotImplementedError", "GoogleSearchRun does not support async"⟩ ∧
    google_search_results_arun query =
      Except.error ⟨"NotImplementedError", "GoogleSearchRun does not support async"⟩ ∧
    browser_arun url =
      Except.error ⟨"NotImplementedError", "not support run this tool in async"⟩ :=
  ⟨rfl, rfl, rfl⟩

/-- C10: `GoogleSearchResults._run` returns the Python string representation
of the list produced by `api_wrapper.results(query, num_results)`, and the
`num_results` field defaults to `3`, so a default-configured tool requests
exactly three results per query. -/
theorem c10_results_str (results : String → Nat → List String)
    (tool : GoogleSearchResults) (query : String) :
    google_search_results_run results tool query =
      pyListStr (results query tool.num_results) ∧
    ({} : GoogleSearchResults).num_results = 3 ∧
    google_search_results_run results {} query = pyListStr (results query 3) :=
  ⟨rfl, rfl, rfl⟩
